import Mathlib

/-
  Verification development for `mlagents/trainers/sac/optimizer_torch.py`
  (SAC optimizer with the MEDE variational-diversity auxiliary objective).

  Tensors are embedded as lists of exact numbers (ℚ where the computation is
  rational, ℝ where `exp`/`log` appear); the batch dimension is a list and a
  per-reward-stream dictionary is a list of per-stream records.  Reward and
  loss formulas are transcribed from the source; helpers that live elsewhere
  in the repository (`ModelUtils.*`) are modelled from the spec and marked so.
-/

namespace SacOptimizer

/-- Modelled from the spec: `ModelUtils.masked_mean` (mlagents.trainers.torch.utils,
not under src/): the mean of the entries of `xs` selected by the boolean mask. -/
def masked_mean {α : Type} [DivisionRing α] (xs : List α) (masks : List Bool) : α :=
  let sel := ((xs.zip masks).filter (fun p => p.2)).map (fun p => p.1)
  sel.sum / (sel.length : α)

/-- Modelled from the spec: elementwise squared error, the `mse` of
`torch.nn.functional.mse_loss` as the spec composes it with `masked_mean`. -/
def mse_elts {α : Type} [Ring α] (xs ys : List α) : List α :=
  List.zipWith (fun a b => (a - b) ^ 2) xs ys

/-- Mean of a list (`torch.mean` over a stacked list of scalars). -/
def listMean {α : Type} [DivisionRing α] (xs : List α) : α :=
  xs.sum / (xs.length : α)

/-- Modelled from the spec: `ModelUtils.break_into_branches` — split a
concatenated per-branch tensor into branches by cardinality. -/
def break_into_branches {α : Type} (xs : List α) : List ℕ → List (List α)
  | [] => []
  | b :: bs => xs.take b :: break_into_branches (xs.drop b) bs

/-- Dot product of two lists (`torch.sum(a * b)`). -/
def dotL {α : Type} [Ring α] (xs ys : List α) : α :=
  (List.zipWith (fun a b => a * b) xs ys).sum

/-- Three-list variant of `List.zipWith`, used to transcribe elementwise tensor
formulas with three operands. -/
def listZip3 {α β γ δ : Type} (f : α → β → γ → δ) :
    List α → List β → List γ → List δ
  | a :: as, b :: bs, c :: cs => f a b c :: listZip3 f as bs cs
  | _, _, _ => []

/-- Minimum of a non-empty list, `0` for the empty list (`torch.min`). -/
def listMin : List ℚ → ℚ
  | [] => 0
  | x :: xs => xs.foldl min x

/-- Maximum of a non-empty list, `0` for the empty list (`torch.max`). -/
def listMax : List ℚ → ℚ
  | [] => 0
  | x :: xs => xs.foldl max x

/- ### Action spec and target entropy (construction, lines 327–331 and 361–413) -/

/-- Shape of the action space: `ActionSpec` of `mlagents_envs.base_env`
restricted to the two fields this optimizer reads. -/
structure ActionSpec where
  continuous_size : ℕ
  discrete_branches : List ℕ

/-- Non-exposed SAC parameter, source line 361: `0.2`. -/
def discrete_target_entropy_scale : ℝ := 0.2

/-- Non-exposed SAC parameter, source line 362: `1.0`. -/
def continuous_target_entropy_scale : ℝ := 1.0

/-- The `TargetEntropy` named tuple of `TorchSACOptimizer` (lines 327–331). -/
structure TargetEntropy where
  discrete : List ℝ
  continuous : ℝ

/-- Construction of `self.target_entropy` (source lines 402–413):
`continuous = -1 * continuous_target_entropy_scale * np.prod(continuous_size)`
(`np.prod` of a scalar is the scalar itself) and
`discrete = [discrete_target_entropy_scale * np.log(i) for i in branches]`.
It is a pure function of the action spec: the record is written once at
construction and never depends on batch content. -/
noncomputable def target_entropy_of (spec : ActionSpec) : TargetEntropy :=
  { continuous :=
      -1 * continuous_target_entropy_scale * (spec.continuous_size : ℝ)
    discrete :=
      spec.discrete_branches.map (fun k => discrete_target_entropy_scale * Real.log k) }

/- ### MEDE adaptive KL weight β (DiverseNetworkVariational, lines 34, 48, 245–253) -/

namespace DiverseNetworkVariational

/-- Class attribute `alpha = 0.0005` (source line 34), the β step size. -/
def alpha : ℚ := 0.0005

/-- `beta_start = 0.0` (source line 48), β's initial value. -/
def beta_start : ℚ := 0

/-- Class attribute `EPSILON = 1e-7` (source line 35). -/
def EPSILON : ℝ := 1e-7

/-- The β update performed inside `loss` (source lines 246–250):
`β ← max(β + alpha * (kl_loss - mutual_information), 0)`. -/
def beta_step (beta kl mutual_information : ℚ) : ℚ :=
  max (beta + alpha * (kl - mutual_information)) 0

/-- β after a sequence of MEDE loss computations with the given KL values,
starting from `beta_start`. -/
def beta_after (mutual_information : ℚ) (kls : List ℚ) : ℚ :=
  kls.foldl (fun b k => beta_step b k mutual_information) beta_start

end DiverseNetworkVariational

/- ### Q loss (`TorchSACOptimizer.sac_q_loss`, lines 471–503, with the
per-stream `gammas` / `use_dones_in_backup` configuration of lines 366–370) -/

/-- One reward stream as `sac_q_loss` consumes it: the stream's reward column,
the target-network values for it, its configured `gamma`, its reward signal's
`ignore_done` flag, and the (condensed) Q1/Q2 outputs for the stream. -/
structure QStream where
  rewards : List ℚ
  target_values : List ℚ
  gamma : ℚ
  ignore_done : Bool
  q1 : List ℚ
  q2 : List ℚ

/-- per-stream `use_dones_in_backup` entry (source lines 367–370):
`int(not reward_signal.ignore_done)`. -/
def use_dones_in_backup (s : QStream) : ℚ :=
  if s.ignore_done then 0 else 1

/-- The bootstrap target of `sac_q_loss` (source lines 486–491), computed under
`torch.no_grad`:
`q_backup = rewards + (1 - use_dones_in_backup * dones) * gamma * target_values`. -/
def q_backup (s : QStream) (dones : List ℚ) : List ℚ :=
  listZip3 (fun r d tv => r + (1 - use_dones_in_backup s * d) * s.gamma * tv)
    s.rewards dones s.target_values

/-- `TorchSACOptimizer.sac_q_loss` (source lines 471–503): per stream,
`0.5 * masked_mean(mse(q_backup, q_stream))` for Q1 and Q2 independently; the
returned pair is the mean over streams of the per-stream losses. -/
def sac_q_loss (streams : List QStream) (dones : List ℚ) (loss_masks : List Bool) :
    ℚ × ℚ :=
  let q1_losses := streams.map (fun s =>
    (1 / 2) * masked_mean (mse_elts (q_backup s dones) s.q1) loss_masks)
  let q2_losses := streams.map (fun s =>
    (1 / 2) * masked_mean (mse_elts (q_backup s dones) s.q2) loss_masks)
  (listMean q1_losses, listMean q2_losses)

/- ### Construction guard and value-loss folding
(`TorchSACOptimizer.__init__` lines 342–343, `update` lines 902–906) -/

/-- The exception type raised by the optimizer
(`mlagents.trainers.exception.UnityTrainerException`). -/
structure UnityTrainerException where
  msg : String
deriving DecidableEq

/-- The slice of the policy object the construction guard and the value-loss
fold read: its `shared_critic` flag. -/
structure SacPolicy where
  shared_critic : Bool
deriving DecidableEq

/-- State of a successfully constructed optimizer, as far as the value-loss
fold is concerned: the stored policy. -/
structure SacOptimizerState where
  policy : SacPolicy
deriving DecidableEq

/-- The construction guard of `TorchSACOptimizer.__init__` (source lines
342–343): a policy with `shared_critic` raises `UnityTrainerException`. -/
def TorchSACOptimizer_init (policy : SacPolicy) :
    Except UnityTrainerException SacOptimizerState :=
  if policy.shared_critic then
    .error ⟨"SAC does not support SharedActorCritic"⟩
  else
    .ok ⟨policy⟩

/-- The loss-combination step of `update` (source lines 902–906): returns the
pair `(policy_loss, total_value_loss)` handed to the policy and value
optimizers.  `total_value_loss = q1_loss + q2_loss`, and the value loss is
folded into the policy loss when the critic is shared, otherwise into the
total value loss. -/
def update_loss_combination (opt : SacOptimizerState)
    (policy_loss q1_loss q2_loss value_loss : ℚ) : ℚ × ℚ :=
  let total_value_loss := q1_loss + q2_loss
  if opt.policy.shared_critic then
    (policy_loss + value_loss, total_value_loss)
  else
    (policy_loss, total_value_loss + value_loss)

/- ### Target-network soft update and update ordering
(construction line 385, `update` lines 908–957) -/

/-- Modelled from the spec: `ModelUtils.soft_update(source, target, tau)`
(mlagents.trainers.torch.utils, not under src/), per scalar parameter entry:
`target ← tau * source + (1 - tau) * target`. -/
def soft_update (tau source target : ℝ) : ℝ :=
  tau * source + (1 - tau) * target

/-- One target-network entry after `n` repeated soft updates against a fixed
source, starting from `t0`. -/
def target_iterate (tau source t0 : ℝ) : ℕ → ℝ
  | 0 => t0
  | n + 1 => soft_update tau source (target_iterate tau source t0 n)

/-- The state-changing phases of one `TorchSACOptimizer.update` call, in
program order. -/
inductive UpdateEvent where
  | lrDecay
  | policyStep
  | valueStep
  | entropyStep
  | softUpdateTarget
  | medeStep
  | saliencyRefresh
deriving DecidableEq

/-- Program order of the phases of `update` (source lines 908–957): learning
rate decay, policy optimizer step, value optimizer step, entropy optimizer
step, target-network soft update, then — only when MEDE is enabled — the MEDE
optimizer step and, when saliency dropout is active, the saliency refresh. -/
def update_event_trace (use_mede mede_saliency : Bool) : List UpdateEvent :=
  [.lrDecay, .policyStep, .valueStep, .entropyStep, .softUpdateTarget] ++
    (if use_mede then
      .medeStep :: (if mede_saliency then [.saliencyRefresh] else [])
    else [])

/- ### Saliency rescaling (`DiverseNetworkVariational.update_saliency`,
lines 151–164) -/

/-- The saliency-to-drop-rate rescaling of `update_saliency` (source lines
156–158 for one observation channel vector; lines 162–164 are the identical
computation for continuous actions): `drop = sal - min(sal)`;
`drop = 1 - drop / max(drop)`; `drop *= max_saliency_dropout`. -/
def update_saliency_rescale (sal : List ℚ) (max_saliency_dropout : ℚ) : List ℚ :=
  let drop1 := sal.map (fun x => x - listMin sal)
  let drop2 := drop1.map (fun d => 1 - d / listMax drop1)
  drop2.map (fun d => d * max_saliency_dropout)

/- ### Non-finite value-loss guard (`sac_value_loss`, lines 595–598, and its
call from `update`, lines 896–898 / 926–939) -/

/-- Extended scalar with the non-finite values of a floating-point loss:
finite (exact) values, the two infinities, and NaN. -/
inductive FP where
  | fin : ℚ → FP
  | pinf : FP
  | ninf : FP
  | nan : FP
deriving DecidableEq

/-- Addition on `FP`: NaN absorbs, opposite infinities give NaN, an infinity
absorbs finite values. -/
def FP.add : FP → FP → FP
  | nan, _ => nan
  | _, nan => nan
  | pinf, ninf => nan
  | ninf, pinf => nan
  | pinf, _ => pinf
  | _, pinf => pinf
  | ninf, _ => ninf
  | _, ninf => ninf
  | fin a, fin b => fin (a + b)

/-- Division of an `FP` by a natural count; division by `0` (the mean of an
empty stack) gives NaN. -/
def FP.divNat : FP → ℕ → FP
  | _, 0 => nan
  | fin a, n => fin (a / n)
  | pinf, _ => pinf
  | ninf, _ => ninf
  | nan, _ => nan

/-- `torch.isinf(x).any() or torch.isnan(x).any()` for a scalar `FP`. -/
def FP.isInfOrNaN : FP → Bool
  | fin _ => false
  | _ => true

/-- `torch.mean(torch.stack(value_losses))` (source line 595) over `FP`. -/
def fp_mean (xs : List FP) : FP :=
  (xs.foldl FP.add (FP.fin 0)).divNat xs.length

/-- The final assembly and guard of `sac_value_loss` (source lines 595–598):
the mean over streams of the per-stream value losses, raising
`UnityTrainerException("Inf found")` when it is infinite or NaN. -/
def sac_value_loss_guarded (value_losses : List FP) :
    Except UnityTrainerException FP :=
  let value_loss := fp_mean value_losses
  if value_loss.isInfOrNaN then .error ⟨"Inf found"⟩ else .ok value_loss

/-- The stats mapping returned by a completed `update` call (source lines
926–939), restricted to the four loss entries. -/
structure UpdateStats where
  policy_loss : FP
  value_loss : FP
  q1_loss : FP
  q2_loss : FP
deriving DecidableEq

/-- The tail of `update` around the value loss (source lines 896–898 and
926–939): `sac_value_loss` is called before the stats mapping is built and its
exception propagates, so a stats mapping is only returned when the guard
passes. -/
def update_with_value_guard (policy_loss q1_loss q2_loss : FP)
    (value_losses : List FP) : Except UnityTrainerException UpdateStats :=
  (sac_value_loss_guarded value_losses).map
    (fun v => ⟨policy_loss, v, q1_loss, q2_loss⟩)

/- ### Condensing discrete Q streams (`TorchSACOptimizer._condense_q_streams`,
lines 693–712) -/

/-- Modelled from the spec: one branch of `ModelUtils.actions_to_onehot`
(mlagents.trainers.torch.utils, not under src/) — the one-hot vector of length
`n` selecting index `a`. -/
def one_hot : ℕ → ℕ → List ℚ
  | _, 0 => []
  | 0, n + 1 => 1 :: List.replicate n 0
  | a + 1, n + 1 => 0 :: one_hot a n

/-- `TorchSACOptimizer._condense_q_streams` (source lines 693–712) for one
stream and one sample: break the concatenated per-branch logits into branches
by cardinality, multiply each branch by its one-hot action slice and sum over
the branch dimension (`torch.sum(_act * _q, dim=1)`), then take the mean of
the stacked per-branch values (`torch.mean(only_action_qs, dim=0)`). -/
def condense_q_stream (branches : List ℕ) (q_logits : List ℚ)
    (discrete_actions : List ℕ) : ℚ :=
  let onehot_actions := List.zipWith one_hot discrete_actions branches
  let branched_q := break_into_branches q_logits branches
  let only_action_qs := List.zipWith dotL onehot_actions branched_q
  listMean only_action_qs

/-- The per-branch Q values the one-hot action selects, read off directly by
indexing each branch with its action (the claim's "selected per-branch
values"). -/
def selected_q_values (branches : List ℕ) (q_logits : List ℚ)
    (discrete_actions : List ℕ) : List ℚ :=
  List.zipWith (fun br a => br.getD a 0)
    (break_into_branches q_logits branches) discrete_actions

/- ### MEDE reward (`DiverseNetworkVariational.rewards`, lines 189–223) -/

/-- A one-hot goal-signal vector: every entry `0` or `1`, entries summing
to `1`. -/
def isOneHot (v : List ℝ) : Prop :=
  (∀ x ∈ v, x = 0 ∨ x = 1) ∧ v.sum = 1

/-- `DiverseNetworkVariational.rewards` in the path without discrete actions
(source lines 215–218): `log(sum(prediction * truth, dim=1) + self.EPSILON)`
per sample, with the optional centering of lines 220–221 subtracting
`np.log(1 / self.diverse_size)`. -/
noncomputable def mede_reward (prediction truth : List ℝ) (centered_reward : Bool)
    (diverse_size : ℕ) : ℝ :=
  let r := Real.log (dotL prediction truth + DiverseNetworkVariational.EPSILON)
  if centered_reward then r - Real.log (1 / (diverse_size : ℝ)) else r

/- ### Value loss (`TorchSACOptimizer.sac_value_loss`, lines 505–595) -/

/-- Per-stream inputs of `sac_value_loss` when the action space is purely
continuous: the critic values and the Q1/Q2 outputs at actor-sampled actions,
one scalar per sample. -/
structure VStreamC where
  values : List ℝ
  q1p : List ℝ
  q2p : List ℝ

/-- Per-stream inputs of `sac_value_loss` when discrete actions are present:
the critic values and the Q1/Q2 per-branch logit rows at actor-sampled
actions. -/
structure VStreamD where
  values : List ℝ
  q1p : List (List ℝ)
  q2p : List (List ℝ)

/-- The branch-averaged, action-probability-weighted Q value of
`sac_value_loss` (source lines 522–548): break `q_row * probs_row` into
branches, sum each branch, take the mean of the stacked per-branch sums. -/
noncomputable def q_branch_mean_weighted (branches : List ℕ)
    (q_row probs_row : List ℝ) : ℝ :=
  listMean ((break_into_branches
    (List.zipWith (fun q p => q * p) q_row probs_row) branches).map List.sum)

/-- The per-sample discrete entropy bonus of `sac_value_loss` (source lines
565–576): per branch, `sum(disc_ent_coef[i] * log_prob * exp(log_prob))`, then
the mean across branches (`torch.mean(branched_ent_bonus, axis=0)`). -/
noncomputable def disc_ent_bonus_row (branches : List ℕ) (disc_ent_coefs : List ℝ)
    (disc_lp_row : List ℝ) : ℝ :=
  let branched_per_action_ent :=
    break_into_branches (disc_lp_row.map (fun lp => lp * Real.exp lp)) branches
  let branched_ent_bonus := List.zipWith
    (fun coef br => (br.map (fun x => coef * x)).sum) disc_ent_coefs
    branched_per_action_ent
  listMean branched_ent_bonus

/-- `TorchSACOptimizer.sac_value_loss`, continuous-only path (source lines
514–520 and 553–563, final mean at line 595): per stream, the backup is
`min(Q1p, Q2p) - sum(cont_ent_coef * cont_log_probs) + mede_strength * mede`,
the loss is `0.5 * masked_mean(mse(values, backup))`, and the result is the
mean over streams. -/
noncomputable def sac_value_loss_cont (cont_log_ent : ℝ) (streams : List VStreamC)
    (cont_log_probs : List (List ℝ)) (mede_strength : ℝ) (mede_rewards : List ℝ)
    (loss_masks : List Bool) : ℝ :=
  let cont_ent_coef := Real.exp cont_log_ent
  let value_losses := streams.map (fun s =>
    let min_policy_qs := List.zipWith min s.q1p s.q2p
    let ent_term := cont_log_probs.map
      (fun row => (row.map (fun lp => cont_ent_coef * lp)).sum)
    let v_backup := listZip3 (fun mq e me => mq - e + mede_strength * me)
      min_policy_qs ent_term mede_rewards
    (1 / 2) * masked_mean (mse_elts s.values v_backup) loss_masks)
  listMean value_losses

/-- `TorchSACOptimizer.sac_value_loss`, path with discrete actions (source
lines 514–550 and 564–595): the backup is the min of the branch-averaged
probability-weighted Q values, minus the branch-averaged per-branch-alpha
entropy bonus, plus `mede_strength * mede`, and — when continuous actions are
also present — PLUS `sum(cont_ent_coef * cont_log_probs)` (source line 585,
`v_backup += ...`). -/
noncomputable def sac_value_loss_disc (branches : List ℕ) (continuous_size : ℕ)
    (cont_log_ent : ℝ) (disc_log_ent : List ℝ) (streams : List VStreamD)
    (disc_log_probs cont_log_probs : List (List ℝ)) (mede_strength : ℝ)
    (mede_rewards : List ℝ) (loss_masks : List Bool) : ℝ :=
  let cont_ent_coef := Real.exp cont_log_ent
  let disc_ent_coefs := disc_log_ent.map Real.exp
  let disc_action_probs := disc_log_probs.map (fun row => row.map Real.exp)
  let ent_bonus := disc_log_probs.map (disc_ent_bonus_row branches disc_ent_coefs)
  let cont_term := cont_log_probs.map
    (fun row => (row.map (fun lp => cont_ent_coef * lp)).sum)
  let value_losses := streams.map (fun s =>
    let min_policy_qs := listZip3 (fun q1r q2r pr =>
        min (q_branch_mean_weighted branches q1r pr)
          (q_branch_mean_weighted branches q2r pr))
      s.q1p s.q2p disc_action_probs
    let backup0 := listZip3 (fun mq b me => mq - b + mede_strength * me)
      min_policy_qs ent_bonus mede_rewards
    let v_backup := if 0 < continuous_size then
        List.zipWith (fun vb ct => vb + ct) backup0 cont_term
      else backup0
    (1 / 2) * masked_mean (mse_elts s.values v_backup) loss_masks)
  listMean value_losses

/-- The continuous-only value loss as the CLAIM states it: per stream, backup
`min(Q1p, Q2p) - sum(alpha_c * log_prob_c) + mede_strength * mede_reward`,
loss `0.5 * masked_mean(mse(values, backup))`, averaged across streams. -/
noncomputable def claim_value_loss_cont (cont_log_ent : ℝ) (streams : List VStreamC)
    (cont_log_probs : List (List ℝ)) (mede_strength : ℝ) (mede_rewards : List ℝ)
    (loss_masks : List Bool) : ℝ :=
  listMean (streams.map (fun s =>
    (1 / 2) * masked_mean (mse_elts s.values
      (listZip3 (fun mq row me =>
          mq - (row.map (fun lp => Real.exp cont_log_ent * lp)).sum +
            mede_strength * me)
        (List.zipWith min s.q1p s.q2p) cont_log_probs mede_rewards))
      loss_masks))

/-- The discrete-path value loss as the CLAIM states it: identical to
`sac_value_loss_disc` except that when continuous actions are present the
continuous entropy term is SUBTRACTED from the backup. -/
noncomputable def claim_value_loss_disc (branches : List ℕ) (continuous_size : ℕ)
    (cont_log_ent : ℝ) (disc_log_ent : List ℝ) (streams : List VStreamD)
    (disc_log_probs cont_log_probs : List (List ℝ)) (mede_strength : ℝ)
    (mede_rewards : List ℝ) (loss_masks : List Bool) : ℝ :=
  let cont_ent_coef := Real.exp cont_log_ent
  let disc_ent_coefs := disc_log_ent.map Real.exp
  let disc_action_probs := disc_log_probs.map (fun row => row.map Real.exp)
  let ent_bonus := disc_log_probs.map (disc_ent_bonus_row branches disc_ent_coefs)
  let cont_term := cont_log_probs.map
    (fun row => (row.map (fun lp => cont_ent_coef * lp)).sum)
  let value_losses := streams.map (fun s =>
    let min_policy_qs := listZip3 (fun q1r q2r pr =>
        min (q_branch_mean_weighted branches q1r pr)
          (q_branch_mean_weighted branches q2r pr))
      s.q1p s.q2p disc_action_probs
    let backup0 := listZip3 (fun mq b me => mq - b + mede_strength * me)
      min_policy_qs ent_bonus mede_rewards
    let v_backup := if 0 < continuous_size then
        List.zipWith (fun vb ct => vb - ct) backup0 cont_term
      else backup0
    (1 / 2) * masked_mean (mse_elts s.values v_backup) loss_masks)
  listMean value_losses

/- ### Theorems -/

/-- Helper: `getD` of a `List.map` at an in-range index. -/
theorem map_getD {α β : Type} (f : α → β) :
    ∀ (l : List α) (i : ℕ), i < l.length → ∀ (da : α) (db : β),
      (l.map f).getD i db = f (l.getD i da) := by
  intro l
  induction l with
  | nil => intro i hi; simp at hi
  | cons a as ih =>
    intro i hi da db
    cases i with
    | zero => simp
    | succ n =>
      simp only [List.map_cons, List.getD_cons_succ]
      exact ih n (by simpa using hi) da db

/-- Helper: `getD` of a `listZip3` at an index in range of all three lists. -/
theorem listZip3_getD {α β γ δ : Type} (f : α → β → γ → δ) :
    ∀ (as : List α) (bs : List β) (cs : List γ) (i : ℕ),
      i < as.length → i < bs.length → i < cs.length →
      ∀ (da : α) (db : β) (dc : γ) (dd : δ),
        (listZip3 f as bs cs).getD i dd = f (as.getD i da) (bs.getD i db) (cs.getD i dc) := by
  intro as
  induction as with
  | nil => intro bs cs i ha; simp at ha
  | cons a as ih =>
    intro bs cs i ha hb hc da db dc dd
    match bs, cs with
    | [], _ => simp at hb
    | _ :: _, [] => simp at hc
    | b :: bs, c :: cs =>
      match i with
      | 0 => simp [listZip3]
      | n + 1 =>
        simp only [listZip3, List.getD_cons_succ]
        exact ih bs cs n (by simpa using ha) (by simpa using hb) (by simpa using hc)
          da db dc dd

/-- C4: for any action spec, the target entropy of a discrete branch with
cardinality `k` equals `0.2 * ln k` and the continuous target entropy equals
`-1.0 * continuous_size`; `target_entropy_of` is a pure function of the action
spec alone (so the values never depend on batch content). -/
theorem c4_target_entropy (spec : ActionSpec) :
    (target_entropy_of spec).continuous = -1.0 * (spec.continuous_size : ℝ) ∧
    (target_entropy_of spec).discrete =
      spec.discrete_branches.map (fun k => 0.2 * Real.log k) := by
  constructor
  · simp [target_entropy_of, continuous_target_entropy_scale]
  · simp [target_entropy_of, discrete_target_entropy_scale]

/-- C8: the β update rule is `β ← max(0, β + 0.0005 * (KL - target_budget))`,
and consequently, starting from its initial value `beta_start = 0`, β is
non-negative after every update, for any sequence of KL values. -/
theorem c8_beta_nonneg :
    (∀ b kl mi : ℚ, DiverseNetworkVariational.beta_step b kl mi =
      max 0 (b + (5 / 10000) * (kl - mi))) ∧
    (∀ (mutual_information : ℚ) (kls : List ℚ),
      0 ≤ DiverseNetworkVariational.beta_after mutual_information kls) := by
  constructor
  · intro b kl mi
    rw [DiverseNetworkVariational.beta_step, max_comm]
    norm_num [DiverseNetworkVariational.alpha]
  · intro mi kls
    have h : ∀ (b : ℚ), 0 ≤ b →
        0 ≤ kls.foldl (fun b k => DiverseNetworkVariational.beta_step b k mi) b := by
      induction kls with
      | nil => intro b hb; simpa using hb
      | cons k ks ih =>
        intro b _
        simpa using ih (DiverseNetworkVariational.beta_step b k mi)
          (le_max_right _ _)
    exact h _ le_rfl

/-- C1: for every reward stream, the Q-loss bootstrap target at every sample
equals `reward + (1 - done_mask * done) * gamma * target_value`, where the
stream's done mask is `1` unless its reward signal is configured to ignore
terminal states (then `0`); and `sac_q_loss` returns, for Q1 and Q2
independently, the mean over streams of `0.5 * masked_mean(mse(backup, q))`. -/
theorem c1_q_loss (streams : List QStream) (dones : List ℚ) (masks : List Bool)
    (s : QStream) (i : ℕ) (hr : i < s.rewards.length) (hd : i < dones.length)
    (ht : i < s.target_values.length) :
    (q_backup s dones).getD i 0 =
      s.rewards.getD i 0 +
        (1 - (if s.ignore_done then 0 else 1) * dones.getD i 0) * s.gamma *
          s.target_values.getD i 0 ∧
    sac_q_loss streams dones masks =
      (listMean (streams.map (fun t =>
          (1 / 2) * masked_mean (mse_elts (q_backup t dones) t.q1) masks)),
        listMean (streams.map (fun t =>
          (1 / 2) * masked_mean (mse_elts (q_backup t dones) t.q2) masks))) := by
  refine ⟨?_, rfl⟩
  rw [q_backup, listZip3_getD _ _ _ _ i hr hd ht 0 0 0 0]
  simp [use_dones_in_backup]

/-- Witness for C1 at a one-sample, one-stream batch: reward `2`, done `1`,
`gamma = 1/2`, `ignore_done = false`, target value `3`, Q1 `5`, Q2 `7`. -/
theorem c1_q_loss_witness :
    (0 : ℕ) < 1 ∧
    (q_backup ⟨[2], [3], 1 / 2, false, [5], [7]⟩ [1]).getD 0 0 =
      ([(2 : ℚ)].getD 0 0 +
        (1 - (if false then 0 else 1) * ([(1 : ℚ)].getD 0 0)) * (1 / 2) *
          ([(3 : ℚ)].getD 0 0)) ∧
    sac_q_loss [⟨[2], [3], 1 / 2, false, [5], [7]⟩] [1] [true] = (9 / 2, 25 / 2) := by
  have h := c1_q_loss [⟨[2], [3], 1 / 2, false, [5], [7]⟩] [1] [true]
    ⟨[2], [3], 1 / 2, false, [5], [7]⟩ 0 (by decide) (by decide) (by decide)
  refine ⟨by decide, h.1, ?_⟩
  rw [h.2]
  norm_num [listMean, masked_mean, mse_elts, q_backup, listZip3, use_dones_in_backup]

/-- C10: constructing the optimizer with a policy whose actor and critic share
parameters raises `UnityTrainerException`; for every successfully constructed
optimizer the stored policy has `shared_critic = false`, so the branch of
`update` that folds the value loss into the policy loss is unreachable and the
value-optimizer step always uses
`total_value_loss = q1_loss + q2_loss + value_loss`. -/
theorem c10_shared_critic_guard (p : SacPolicy) (st : SacOptimizerState)
    (pl q1 q2 v : ℚ) :
    (p.shared_critic = true →
      TorchSACOptimizer_init p = .error ⟨"SAC does not support SharedActorCritic"⟩) ∧
    (TorchSACOptimizer_init p = .ok st →
      st.policy.shared_critic = false ∧
      update_loss_combination st pl q1 q2 v = (pl, q1 + q2 + v)) := by
  constructor
  · intro h
    simp [TorchSACOptimizer_init, h]
  · intro h
    by_cases hc : p.shared_critic
    · simp [TorchSACOptimizer_init, hc] at h
    · simp [TorchSACOptimizer_init, hc] at h
      have hst : st.policy.shared_critic = false := by
        rw [← h]
        simpa using hc
      refine ⟨hst, ?_⟩
      simp [update_loss_combination, hst, add_assoc]

/-- Witness for C10: construction with `shared_critic = true` errors out, and a
constructed optimizer combines `q1 + q2 + value` for the value-optimizer step. -/
theorem c10_shared_critic_guard_witness :
    TorchSACOptimizer_init ⟨true⟩ =
      .error ⟨"SAC does not support SharedActorCritic"⟩ ∧
    update_loss_combination ⟨⟨false⟩⟩ 1 2 3 4 = (1, 9) := by
  refine ⟨(c10_shared_critic_guard ⟨true⟩ ⟨⟨true⟩⟩ 0 0 0 0).1 rfl, ?_⟩
  have h := (c10_shared_critic_guard ⟨false⟩ ⟨⟨false⟩⟩ 1 2 3 4).2 rfl
  rw [h.2]
  norm_num

/-- Helper: folding `max` commutes with subtracting a constant. -/
theorem foldl_max_map_sub :
    ∀ (xs : List ℚ) (x c : ℚ),
      (xs.map (fun y => y - c)).foldl max (x - c) = xs.foldl max x - c := by
  intro xs
  induction xs with
  | nil => intro x c; simp
  | cons y ys ih =>
    intro x c
    simp only [List.map_cons, List.foldl_cons]
    rw [max_sub_sub_right x y c]
    exact ih (max x y) c

/-- Helper: `listMax` of a shifted non-empty list. -/
theorem listMax_map_sub (x : ℚ) (xs : List ℚ) (c : ℚ) :
    listMax ((x :: xs).map (fun y => y - c)) = listMax (x :: xs) - c := by
  simp only [listMax, List.map_cons]
  exact foldl_max_map_sub xs x c

/-- C7: for the target-network rule `target ← tau * source + (1 - tau) * target`
with fixed source and `0 < tau ≤ 1`: the gap to the source scales by
`(1 - tau)` each application, repeated application converges to the source,
and with `tau = 1` one application (the hard copy performed at construction
with `1.0`) already equals the source; moreover in every `update` call the
soft update happens exactly once, ordered after the policy, value and entropy
optimizer steps. -/
theorem c7_soft_update_convergence (tau s t0 : ℝ) (use_mede mede_saliency : Bool)
    (h0 : 0 < tau) (h1 : tau ≤ 1) :
    (∀ n, target_iterate tau s t0 (n + 1) - s =
      (1 - tau) * (target_iterate tau s t0 n - s)) ∧
    (∀ n, target_iterate tau s t0 n - s = (1 - tau) ^ n * (t0 - s)) ∧
    Filter.Tendsto (target_iterate tau s t0) Filter.atTop (nhds s) ∧
    soft_update 1 s t0 = s ∧
    (update_event_trace use_mede mede_saliency).count UpdateEvent.softUpdateTarget = 1 ∧
    (update_event_trace use_mede mede_saliency).take 5 =
      [UpdateEvent.lrDecay, UpdateEvent.policyStep, UpdateEvent.valueStep,
        UpdateEvent.entropyStep, UpdateEvent.softUpdateTarget] := by
  have hgap : ∀ n, target_iterate tau s t0 n - s = (1 - tau) ^ n * (t0 - s) := by
    intro n
    induction n with
    | zero => simp [target_iterate]
    | succ k ih =>
      have : target_iterate tau s t0 (k + 1) - s =
          (1 - tau) * (target_iterate tau s t0 k - s) := by
        simp only [target_iterate, soft_update]
        ring
      rw [this, ih, pow_succ]
      ring
  refine ⟨?_, hgap, ?_, ?_, ?_, ?_⟩
  · intro n
    simp only [target_iterate, soft_update]
    ring
  · have heq : target_iterate tau s t0 = fun n => s + (1 - tau) ^ n * (t0 - s) := by
      funext n
      have := hgap n
      linarith
    rw [heq]
    have hpow : Filter.Tendsto (fun n : ℕ => (1 - tau) ^ n) Filter.atTop (nhds 0) :=
      tendsto_pow_atTop_nhds_zero_of_lt_one (by linarith) (by linarith)
    simpa using (hpow.mul_const (t0 - s)).const_add s
  · simp [soft_update]
  · cases use_mede <;> cases mede_saliency <;> decide
  · cases use_mede <;> cases mede_saliency <;> decide

/-- Witness for C7 at `tau = 1/2`, source `1`, initial target `0`, MEDE and
saliency dropout enabled. -/
theorem c7_soft_update_convergence_witness :
    (0 : ℝ) < 1 / 2 ∧ (1 / 2 : ℝ) ≤ 1 ∧
    Filter.Tendsto (target_iterate (1 / 2) 1 0) Filter.atTop (nhds 1) ∧
    soft_update 1 1 0 = 1 ∧
    (update_event_trace true true).count UpdateEvent.softUpdateTarget = 1 := by
  have h := c7_soft_update_convergence (1 / 2) 1 0 true true (by norm_num) (by norm_num)
  exact ⟨by norm_num, by norm_num, h.2.2.1, h.2.2.2.1, h.2.2.2.2.1⟩

/-- C5 counterexample: for the smoothed-saliency vector `[0, 1]` (distinct
values) and configured maximum `1/2 > 0`, the code assigns the
minimum-saliency channel (index 0) drop rate `1/2` and the maximum-saliency
channel (index 1) drop rate `0` — the claim asserts the opposite assignment. -/
theorem c5_counterexample :
    (update_saliency_rescale [0, 1] (1 / 2)).getD 0 0 = 1 / 2 ∧
    (update_saliency_rescale [0, 1] (1 / 2)).getD 1 0 = 0 ∧
    ¬ ((update_saliency_rescale [0, 1] (1 / 2)).getD 0 0 = 0 ∧
        (update_saliency_rescale [0, 1] (1 / 2)).getD 1 0 = 1 / 2) := by
  refine ⟨?_, ?_, ?_⟩ <;> norm_num [update_saliency_rescale, listMin, listMax]

/-- C5 (amended): for any smoothed-saliency vector with distinct values and any
positive configured maximum dropout strength, after the rescaling step the
channel with the MINIMUM saliency value has drop probability equal to the
configured maximum and the channel with the MAXIMUM saliency value has drop
probability zero (lower-saliency channels are dropped more). -/
theorem c5_saliency_rescale (sal : List ℚ) (strength : ℚ) (i j : ℕ)
    (hd : listMin sal < listMax sal) (_hs : 0 < strength)
    (hi : i < sal.length) (hj : j < sal.length)
    (hvi : sal.getD i 0 = listMin sal) (hvj : sal.getD j 0 = listMax sal) :
    (update_saliency_rescale sal strength).getD i 0 = strength ∧
    (update_saliency_rescale sal strength).getD j 0 = 0 := by
  obtain ⟨x, xs, rfl⟩ : ∃ x xs, sal = x :: xs := by
    cases sal with
    | nil => simp at hi
    | cons x xs => exact ⟨x, xs, rfl⟩
  have hmax : listMax ((x :: xs).map (fun y => y - listMin (x :: xs))) =
      listMax (x :: xs) - listMin (x :: xs) := listMax_map_sub x xs _
  have hne : listMax (x :: xs) - listMin (x :: xs) ≠ 0 := by
    intro h
    exact absurd (by linarith : listMax (x :: xs) ≤ listMin (x :: xs)) (not_le.mpr hd)
  have hval : ∀ (k : ℕ), k < (x :: xs).length →
      (update_saliency_rescale (x :: xs) strength).getD k 0 =
        (1 - ((x :: xs).getD k 0 - listMin (x :: xs)) /
          (listMax (x :: xs) - listMin (x :: xs))) * strength := by
    intro k hk
    simp only [update_saliency_rescale]
    rw [map_getD _ _ k (by simpa using hk) (1 - 0 / (listMax ((x :: xs).map
      (fun y => y - listMin (x :: xs))))) 0]
    rw [map_getD _ _ k (by simpa using hk) 0 _]
    rw [map_getD _ _ k (by simpa using hk) 0 _]
    rw [hmax]
  constructor
  · rw [hval i hi, hvi]
    simp
  · rw [hval j hj, hvj]
    rw [div_self hne]
    ring

/-- Witness for the amended C5 at saliency `[0, 1]`, strength `1/2`. -/
theorem c5_saliency_rescale_witness :
    listMin [0, 1] < listMax [(0 : ℚ), 1] ∧ (0 : ℚ) < 1 / 2 ∧
    (update_saliency_rescale [0, 1] (1 / 2)).getD 0 0 = 1 / 2 ∧
    (update_saliency_rescale [0, 1] (1 / 2)).getD 1 0 = 0 := by
  have h := c5_saliency_rescale [0, 1] (1 / 2) 0 1
    (by norm_num [listMin, listMax]) (by norm_num) (by norm_num) (by norm_num)
    (by norm_num [listMin]) (by norm_num [listMax])
  exact ⟨by norm_num [listMin, listMax], by norm_num, h.1, h.2⟩

/-- C6: if the assembled scalar value loss — the mean over streams of the
per-stream value losses — is infinite or NaN, `update` surfaces
`UnityTrainerException("Inf found")` instead of a stats mapping; and whenever
`update` does return a stats mapping, the value loss in it is finite. -/
theorem c6_nonfinite_value_loss (policy_loss q1_loss q2_loss : FP)
    (value_losses : List FP) :
    ((fp_mean value_losses).isInfOrNaN = true →
      update_with_value_guard policy_loss q1_loss q2_loss value_losses =
        .error ⟨"Inf found"⟩) ∧
    (∀ stats, update_with_value_guard policy_loss q1_loss q2_loss value_losses =
        .ok stats →
      (fp_mean value_losses).isInfOrNaN = false ∧
      stats.value_loss = fp_mean value_losses) := by
  constructor
  · intro h
    simp [update_with_value_guard, sac_value_loss_guarded, h, Except.map]
  · intro stats h
    by_cases hnf : (fp_mean value_losses).isInfOrNaN
    · simp [update_with_value_guard, sac_value_loss_guarded, hnf, Except.map] at h
    · simp only [Bool.not_eq_true] at hnf
      simp only [update_with_value_guard, sac_value_loss_guarded, hnf,
        Bool.false_eq_true, if_neg, ite_false, Except.map] at h
      have hst : (⟨policy_loss, fp_mean value_losses, q1_loss, q2_loss⟩ : UpdateStats) =
          stats := Except.ok.inj h
      exact ⟨hnf, by rw [← hst]⟩

/-- Witness for C6: a `+inf` per-stream loss makes the assembled mean `+inf`
and the update return the exception rather than stats. -/
theorem c6_nonfinite_value_loss_witness :
    (fp_mean [FP.pinf]).isInfOrNaN = true ∧
    update_with_value_guard (FP.fin 0) (FP.fin 1) (FP.fin 2) [FP.pinf] =
      .error ⟨"Inf found"⟩ := by
  refine ⟨by decide, ?_⟩
  exact (c6_nonfinite_value_loss (FP.fin 0) (FP.fin 1) (FP.fin 2) [FP.pinf]).1
    (by decide)

/-- Helper: dot product against an all-zero vector. -/
theorem dotL_replicate_zero : ∀ (n : ℕ) (bs : List ℚ),
    dotL (List.replicate n 0) bs = 0 := by
  intro n
  induction n with
  | zero => intro bs; simp [dotL]
  | succ k ih =>
    intro bs
    cases bs with
    | nil => simp [dotL]
    | cons b bs =>
      simp only [List.replicate_succ, dotL, List.zipWith_cons_cons, List.sum_cons,
        zero_mul, zero_add]
      exact ih bs

/-- Helper: the dot product of a one-hot vector with a branch selects the
indexed entry. -/
theorem dotL_one_hot : ∀ (a n : ℕ) (bs : List ℚ), a < n → n ≤ bs.length →
    dotL (one_hot a n) bs = bs.getD a 0 := by
  intro a
  induction a with
  | zero =>
    intro n bs ha hn
    cases n with
    | zero => omega
    | succ m =>
      cases bs with
      | nil => simp at hn
      | cons b bs =>
        simp only [one_hot, dotL, List.zipWith_cons_cons, List.sum_cons, one_mul,
          List.getD_cons_zero]
        have : (List.zipWith (fun a b => a * b) (List.replicate m (0 : ℚ)) bs).sum = 0 :=
          dotL_replicate_zero m bs
        rw [this]
        ring
  | succ a ih =>
    intro n bs ha hn
    cases n with
    | zero => omega
    | succ m =>
      cases bs with
      | nil => simp at hn
      | cons b bs =>
        simp only [one_hot, dotL, List.zipWith_cons_cons, List.sum_cons, zero_mul,
          zero_add, List.getD_cons_succ]
        exact ih m bs (by omega) (by simpa using hn)

/-- Helper: `break_into_branches` produces one chunk per branch. -/
theorem break_into_branches_length {α : Type} :
    ∀ (bs : List ℕ) (q : List α), (break_into_branches q bs).length = bs.length := by
  intro bs
  induction bs with
  | nil => intro q; simp [break_into_branches]
  | cons b bs ih => intro q; simp [break_into_branches, ih]

/-- Helper: under one-hot selection, the branch-wise dot products are exactly
the indexed per-branch values. -/
theorem condense_selected_eq :
    ∀ (acts : List ℕ) (branches : List ℕ) (q : List ℚ),
      List.Forall₂ (fun a b => a < b) acts branches →
      branches.sum ≤ q.length →
      List.zipWith dotL (List.zipWith one_hot acts branches)
          (break_into_branches q branches) =
        selected_q_values branches q acts := by
  intro acts branches q hab
  induction hab generalizing q with
  | nil =>
    intro _
    simp [selected_q_values, break_into_branches]
  | @cons a b as bs hlt htail ih =>
    intro hlen
    have hbq : b ≤ q.length := by
      have := htail.length_eq
      simp only [List.sum_cons] at hlen
      omega
    have hbs : bs.sum ≤ (q.drop b).length := by
      simp only [List.sum_cons] at hlen
      simp only [List.length_drop]
      omega
    simp only [List.zipWith_cons_cons, selected_q_values, break_into_branches]
    rw [dotL_one_hot a b (q.take b) hlt (by simp [List.length_take]; omega)]
    rw [ih (q.drop b) hbs]
    rfl

/-- C3: condensing per-branch Q logits under a one-hot action splits the
concatenated logits into branches by cardinality, selects each branch's value
at the one-hot index, and AVERAGES (not sums) the selected per-branch values:
the condensed scalar equals their sum divided by the number of branches, and
there is exactly one selected value per branch. -/
theorem c3_condense_q (branches : List ℕ) (q_logits : List ℚ) (acts : List ℕ)
    (hab : List.Forall₂ (fun a b => a < b) acts branches)
    (hlen : branches.sum ≤ q_logits.length) :
    condense_q_stream branches q_logits acts =
      (selected_q_values branches q_logits acts).sum / (branches.length : ℚ) ∧
    (selected_q_values branches q_logits acts).length = branches.length := by
  have hsel := condense_selected_eq acts branches q_logits hab hlen
  have hlens : (selected_q_values branches q_logits acts).length = branches.length := by
    simp only [selected_q_values, List.length_zipWith, break_into_branches_length]
    rw [hab.length_eq]
    omega
  constructor
  · simp only [condense_q_stream]
    rw [hsel, listMean, hlens]
  · exact hlens

/-- Witness for C3: branches `[3, 2]`, one-hot action selecting index 1 of
branch 0 and index 0 of branch 1, crafted logits `[10, 20, 30, 40, 50]`: the
condensed value is the arithmetic mean `(20 + 40) / 2 = 30` of the two
selected per-branch values. -/
theorem c3_condense_q_witness :
    List.Forall₂ (fun a b => a < b) [1, 0] [3, 2] ∧
    condense_q_stream [3, 2] [10, 20, 30, 40, 50] [1, 0] = 30 ∧
    selected_q_values [3, 2] [10, 20, 30, 40, 50] [1, 0] = [20, 40] ∧
    ((20 : ℚ) + 40) / 2 = 30 := by
  have hf : List.Forall₂ (fun a b => a < b) [1, 0] [3, 2] :=
    .cons (by norm_num) (.cons (by norm_num) .nil)
  have h := c3_condense_q [3, 2] [10, 20, 30, 40, 50] [1, 0] hf (by norm_num)
  have hsv : selected_q_values [3, 2] [10, 20, 30, 40, 50] [1, 0] = [20, 40] := by
    decide
  refine ⟨hf, ?_, hsv, by norm_num⟩
  rw [h.1, hsv]
  norm_num

/-- Helper: `listZip3` with a mapped middle list fuses the map into the
combining function. -/
theorem listZip3_map_mid {α β β' γ δ : Type} (f : α → β' → γ → δ) (g : β → β') :
    ∀ (as : List α) (bs : List β) (cs : List γ),
      listZip3 f as (bs.map g) cs = listZip3 (fun a b c => f a (g b) c) as bs cs := by
  intro as
  induction as with
  | nil => intro bs cs; cases bs <;> cases cs <;> simp [listZip3]
  | cons a as ih =>
    intro bs cs
    cases bs with
    | nil => simp [listZip3]
    | cons b bs =>
      cases cs with
      | nil => simp [listZip3]
      | cons c cs => simp [listZip3, ih]

/-- Helper: scaling the negated entries sums to the negated scaled sum. -/
theorem sum_map_mul_neg (c : ℝ) :
    ∀ (row : List ℝ),
      (row.map (fun lp => c * -lp)).sum = -(row.map (fun lp => c * lp)).sum := by
  intro row
  induction row with
  | nil => simp
  | cons x xs ih =>
    simp only [List.map_cons, List.sum_cons, ih]
    ring

/-- Helper: elementwise subtraction of a negated list is elementwise addition. -/
theorem zipWith_sub_map_neg :
    ∀ (as bs : List ℝ),
      List.zipWith (fun a b => a - b) as (bs.map (fun b => -b)) =
        List.zipWith (fun a b => a + b) as bs := by
  intro as
  induction as with
  | nil => intro bs; simp
  | cons a as ih =>
    intro bs
    cases bs with
    | nil => simp
    | cons b bs =>
      simp only [List.map_cons, List.zipWith_cons_cons, ih]
      congr 1
      ring

/-- C2 counterexample: a one-sample hybrid batch (one discrete branch of
cardinality 1, one continuous dimension, log coefficients 0 so `alpha = 1`,
continuous log-probability `1`, value estimate `1`, everything else `0`).  The
code's value loss is `0` because the backup is `min(0,0) - 0 + 0 + 1 = 1`,
while the claimed formula (continuous term subtracted) gives backup `-1` and
loss `0.5 * (1 - (-1))^2 = 2` — so they differ, refuting the claim that the
continuous entropy term is still subtracted when both action kinds are
present. -/
theorem c2_counterexample :
    sac_value_loss_disc [1] 1 0 [0] [⟨[1], [[0]], [[0]]⟩] [[0]] [[1]] 0 [0] [true] = 0 ∧
    claim_value_loss_disc [1] 1 0 [0] [⟨[1], [[0]], [[0]]⟩] [[0]] [[1]] 0 [0] [true] = 2 := by
  constructor
  · simp only [sac_value_loss_disc, q_branch_mean_weighted]
    simp only [Real.exp_zero, List.map_cons, List.map_nil]
    simp only [disc_ent_bonus_row]
    norm_num [break_into_branches, listZip3, listMean, masked_mean, mse_elts,
      Real.exp_zero]
  · simp only [claim_value_loss_disc, q_branch_mean_weighted]
    simp only [Real.exp_zero, List.map_cons, List.map_nil]
    simp only [disc_ent_bonus_row]
    norm_num [break_into_branches, listZip3, listMean, masked_mean, mse_elts,
      Real.exp_zero]

/-- C2 (amended): the continuous-only value loss matches the claim's formula
(backup `min(Q1p,Q2p) - sum(alpha_c * log_prob_c) + mede_strength * mede`,
loss `0.5 * masked_mean(mse(value, backup))` averaged across streams); with
discrete actions and no continuous actions it also matches; but in the hybrid
case the code equals the claimed formula applied to NEGATED continuous
log-probabilities — i.e. the continuous entropy term `sum(alpha_c *
log_prob_c)` is ADDED to the backup, not subtracted. -/
theorem c2_value_loss (branches : List ℕ) (csize : ℕ) (cle : ℝ) (dle : List ℝ)
    (streamsC : List VStreamC) (streamsD : List VStreamD)
    (dlp clp : List (List ℝ)) (strength : ℝ) (mede : List ℝ) (masks : List Bool) :
    sac_value_loss_cont cle streamsC clp strength mede masks =
      claim_value_loss_cont cle streamsC clp strength mede masks ∧
    (csize = 0 →
      sac_value_loss_disc branches csize cle dle streamsD dlp clp strength mede masks =
        claim_value_loss_disc branches csize cle dle streamsD dlp clp strength mede
          masks) ∧
    sac_value_loss_disc branches csize cle dle streamsD dlp clp strength mede masks =
      claim_value_loss_disc branches csize cle dle streamsD dlp
        (clp.map (fun row => row.map (fun lp => -lp))) strength mede masks := by
  refine ⟨?_, ?_, ?_⟩
  · simp only [sac_value_loss_cont, claim_value_loss_cont, listZip3_map_mid]
  · intro h
    subst h
    simp [sac_value_loss_disc, claim_value_loss_disc]
  · have hneg : (clp.map (fun row => row.map (fun lp => -lp))).map
        (fun row => (row.map (fun lp => Real.exp cle * lp)).sum) =
        (clp.map (fun row => (row.map (fun lp => Real.exp cle * lp)).sum)).map
          (fun x => -x) := by
      simp only [List.map_map]
      refine List.map_congr_left ?_
      intro row _
      simp only [Function.comp]
      rw [← sum_map_mul_neg (Real.exp cle) row]
      rw [List.map_map]
      rfl
    simp only [sac_value_loss_disc, claim_value_loss_disc, hneg, zipWith_sub_map_neg]

/-- Witness for C2's amended theorem, discharging the `csize = 0` hypothesis
at a concrete discrete-only instance and instantiating the hybrid sign flip. -/
theorem c2_value_loss_witness :
    sac_value_loss_cont 0 [⟨[1], [0], [0]⟩] [[1]] 0 [0] [true] =
      claim_value_loss_cont 0 [⟨[1], [0], [0]⟩] [[1]] 0 [0] [true] ∧
    sac_value_loss_disc [1] 0 0 [0] [⟨[1], [[0]], [[0]]⟩] [[0]] [[1]] 0 [0] [true] =
      claim_value_loss_disc [1] 0 0 [0] [⟨[1], [[0]], [[0]]⟩] [[0]] [[1]] 0 [0]
        [true] ∧
    sac_value_loss_disc [1] 1 0 [0] [⟨[1], [[0]], [[0]]⟩] [[0]] [[1]] 0 [0] [true] =
      claim_value_loss_disc [1] 1 0 [0] [⟨[1], [[0]], [[0]]⟩] [[0]]
        (([[1]] : List (List ℝ)).map (fun row => row.map (fun lp => -lp))) 0 [0]
        [true] := by
  have h := c2_value_loss [1] 0 0 [0] [⟨[1], [0], [0]⟩] [⟨[1], [[0]], [[0]]⟩]
    [[0]] [[1]] 0 [0] [true]
  have h' := c2_value_loss [1] 1 0 [0] [⟨[1], [0], [0]⟩] [⟨[1], [[0]], [[0]]⟩]
    [[0]] [[1]] 0 [0] [true]
  exact ⟨h.1, h.2.1 rfl, h'.2.2⟩

/-- Helper: the dot product with a constant list scales the sum. -/
theorem dotL_replicate (c : ℝ) :
    ∀ (t : List ℝ) (n : ℕ), t.length = n →
      dotL (List.replicate n c) t = c * t.sum := by
  intro t
  induction t with
  | nil => intro n hn; subst hn; simp [dotL]
  | cons x xs ih =>
    intro n hn
    subst hn
    simp only [List.length_cons, List.replicate_succ, dotL, List.zipWith_cons_cons,
      List.sum_cons]
    have := ih xs.length rfl
    simp only [dotL] at this
    rw [this]
    ring

/-- C9: for any prediction distribution and truth vector, the uncentered MEDE
reward (no-discrete-action path) is `log(sum(prediction * truth) + EPSILON)`
and the centered reward subtracts `log(1 / diversity_size)`; with
`diversity_size = 4` and the uniform prediction `[1/4, 1/4, 1/4, 1/4]` against
any one-hot truth, the uncentered reward is `ln(1/4 + EPSILON)` and the
centered reward is within `1e-6` of `0`. -/
theorem c9_mede_reward (prediction truth t4 : List ℝ) (d : ℕ)
    (h1 : isOneHot t4) (h4 : t4.length = 4) :
    mede_reward prediction truth false d =
      Real.log (dotL prediction truth + DiverseNetworkVariational.EPSILON) ∧
    mede_reward prediction truth true d =
      Real.log (dotL prediction truth + DiverseNetworkVariational.EPSILON) -
        Real.log (1 / (d : ℝ)) ∧
    mede_reward (List.replicate 4 (1 / 4)) t4 false 4 =
      Real.log (1 / 4 + DiverseNetworkVariational.EPSILON) ∧
    |mede_reward (List.replicate 4 (1 / 4)) t4 true 4| ≤ 1e-6 := by
  have hdot : dotL (List.replicate 4 (1 / 4 : ℝ)) t4 = 1 / 4 := by
    rw [dotL_replicate (1 / 4) t4 4 h4, h1.2]
    ring
  refine ⟨rfl, rfl, ?_, ?_⟩
  · show Real.log (dotL (List.replicate 4 (1 / 4)) t4 +
      DiverseNetworkVariational.EPSILON) = _
    rw [hdot]
  · have hunfold : mede_reward (List.replicate 4 (1 / 4)) t4 true 4 =
        Real.log (1 / 4 + DiverseNetworkVariational.EPSILON) - Real.log (1 / 4) := by
      show Real.log (dotL (List.replicate 4 (1 / 4)) t4 +
          DiverseNetworkVariational.EPSILON) - Real.log (1 / ((4 : ℕ) : ℝ)) = _
      rw [hdot]
      norm_num
    have hdiv : Real.log (1 / 4 + DiverseNetworkVariational.EPSILON) -
        Real.log (1 / 4) =
        Real.log ((1 / 4 + DiverseNetworkVariational.EPSILON) / (1 / 4)) :=
      (Real.log_div (by norm_num [DiverseNetworkVariational.EPSILON])
        (by norm_num)).symm
    have harg : ((1 / 4 + DiverseNetworkVariational.EPSILON) / (1 / 4) : ℝ) =
        1 + 4 * DiverseNetworkVariational.EPSILON := by
      norm_num [DiverseNetworkVariational.EPSILON]
    rw [hunfold, hdiv, harg]
    have hlo : (0 : ℝ) ≤ Real.log (1 + 4 * DiverseNetworkVariational.EPSILON) :=
      Real.log_nonneg (by norm_num [DiverseNetworkVariational.EPSILON])
    have hhi : Real.log (1 + 4 * DiverseNetworkVariational.EPSILON) ≤
        4 * DiverseNetworkVariational.EPSILON := by
      have := Real.log_le_sub_one_of_pos
        (show (0 : ℝ) < 1 + 4 * DiverseNetworkVariational.EPSILON by
          norm_num [DiverseNetworkVariational.EPSILON])
      linarith
    rw [abs_le]
    constructor
    · linarith
    · have : (4 : ℝ) * DiverseNetworkVariational.EPSILON ≤ 1e-6 := by
        norm_num [DiverseNetworkVariational.EPSILON]
      linarith

/-- Witness for C9 at the one-hot truth `[1, 0, 0, 0]`. -/
theorem c9_mede_reward_witness :
    isOneHot [(1 : ℝ), 0, 0, 0] ∧
    mede_reward (List.replicate 4 (1 / 4)) [(1 : ℝ), 0, 0, 0] false 4 =
      Real.log (1 / 4 + DiverseNetworkVariational.EPSILON) ∧
    |mede_reward (List.replicate 4 (1 / 4)) [(1 : ℝ), 0, 0, 0] true 4| ≤ 1e-6 := by
  have h1 : isOneHot [(1 : ℝ), 0, 0, 0] := by
    constructor
    · intro x hx
      simp only [List.mem_cons, List.not_mem_nil, or_false] at hx
      rcases hx with h | h | h | h <;> simp [h]
    · norm_num
  have h := c9_mede_reward [(1 : ℝ)] [(0 : ℝ)] [(1 : ℝ), 0, 0, 0] 4 h1 rfl
  exact ⟨h1, h.2.2.1, h.2.2.2⟩

end SacOptimizer
